import Mathlib

/-!
# Ekehi Network — shallow embedding of the node's chain logic

This file embeds the consensus-relevant parts of the Ekehi Network node
(`blockchain.js`, `index.js`, `sync-manager.js`) as executable Lean
definitions and proves or refutes the frozen specification claims about
them.

Conventions of the embedding:
* JavaScript numbers that hold token amounts and fees become `Rat`
  (the source only ever manipulates them with `+`, `-`, `<`, `Math.max`
  at small decimal precision); timestamps become `Int`; counters and
  difficulties become `Nat`.
* A JavaScript field that may be `undefined` becomes an `Option`;
  JavaScript truthiness tests (`!x`, `x || d`) are translated explicitly.
* External libraries used by the source (`sha256`, `crypto`, the
  `JSON.stringify` built-in) are not repository code; they enter the
  embedding as the record `JsExt` of function parameters.
* Methods that only mutate `this` become functions from the node state
  `BCState` to a new `BCState`; a thrown JavaScript exception becomes the
  `Except.error` constructor; a place where the source would crash on
  `undefined` (empty chain) becomes `Option.none`.
-/

namespace Ekehi

/-- A transaction object as built by `blockchain.js` (`createNewTransaction`,
the faucet/ecosystem endpoints and the auto-mining reward).  The optional
annotations (`network`, `activity`, ...) are ignored by every function
modelled here, so they are omitted from the record. -/
structure Tx where
  amount : Rat
  sender : String
  recipient : String
  /-- `fee` may be absent (`undefined`) on transactions received over HTTP. -/
  fee : Option Rat
  transactionId : String
  timestamp : Int
deriving Repr, DecidableEq

/-- A block object (`createGenesisBlock` / `createNewBlock`).  `difficulty`
and `totalFees` are optional because blocks received from peers may lack
them; the source guards both with truthiness / `undefined` tests. -/
structure Block where
  index : Int
  timestamp : Int
  transactions : List Tx
  nonce : Nat
  hash : String
  previousBlockHash : String
  difficulty : Option Nat
  totalFees : Option Rat
deriving Repr, DecidableEq

/-- The mutable fields of the `Blockchain` object that the modelled
operations read or write. -/
structure BCState where
  chain : List Block
  pendingTransactions : List Tx
  difficulty : Nat
  minerAddress : String
deriving Repr, DecidableEq

/-- `this.miningReward = 12.5` -/
def miningReward : Rat := 12.5

/-- `this.maxTransactionsPerBlock = 10` -/
def maxTransactionsPerBlock : Nat := 10

/-- `this.minTransactionFee = 0.001` -/
def minTransactionFee : Rat := 0.001

/-- `this.targetBlockTime = 10000` (milliseconds) -/
def targetBlockTime : Int := 10000

/-- The external JavaScript facilities the source calls but does not
define: the `sha256` package (hex digest of a string), node's
`crypto.createHash('sha256')` digest over raw bytes, and the
`JSON.stringify` serialization of the `{transactions, index}` block-data
object.  The embedding is parametric in them. -/
structure JsExt where
  sha256hex : String → String
  sha256bytes : List Nat → List Nat
  stringifyBlockData : List Tx → Int → String

/-- Value of a hex digit, `none` for a non-hex character. -/
def hexVal (c : Char) : Option Nat :=
  if '0' ≤ c ∧ c ≤ '9' then some (c.toNat - '0'.toNat)
  else if 'a' ≤ c ∧ c ≤ 'f' then some (c.toNat - 'a'.toNat + 10)
  else if 'A' ≤ c ∧ c ≤ 'F' then some (c.toNat - 'A'.toNat + 10)
  else none

/-- `Buffer.from(s, 'hex')`: decode hex pairs, stopping at the first
invalid pair (Node:  decoding stops on invalid input; a trailing odd
character is dropped). -/
def hexDecode : List Char → List Nat
  | c1 :: c2 :: rest =>
    match hexVal c1, hexVal c2 with
    | some h, some l => (16 * h + l) :: hexDecode rest
    | _, _ => []
  | _ => []

/-- `isValidAddress(address)` from `blockchain.js`:
accepts `"00"`; otherwise requires the `EKH` prefix, 51 characters total,
24 decoded bytes, and a checksum equal to the first 4 bytes of
SHA-256 over the 20-byte payload. -/
def isValidAddress (ext : JsExt) (address : String) : Bool :=
  -- `if (!address || typeof address !== 'string') return false;`
  if address = "" then false
  else if address = "00" then true
  else if ¬ address.startsWith "EKH" then false
  else if address.length ≠ 51 then false
  else
    let hexPart := address.drop 3
    let addressBytes := hexDecode hexPart.toList
    if addressBytes.length ≠ 24 then false
    else
      let payload := addressBytes.take 20
      let checksum := addressBytes.drop 20
      let expectedChecksum := (ext.sha256bytes payload).take 4
      checksum = expectedChecksum

/-- `parseFloat(fee) || 0` applied to a possibly-missing fee field:
`undefined` parses to `NaN` which is falsy, and `0` is falsy, so both
collapse to `0`; any other number is returned unchanged. -/
def feeOrZero (fee : Option Rat) : Rat := fee.getD 0

/-- `getAddressData(address).addressTransactions`: every chain transaction
whose sender or recipient is the address. -/
def getAddressTransactions (chain : List Block) (address : String) : List Tx :=
  ((chain.map Block.transactions).flatten).filter
    (fun tx => tx.sender = address ∨ tx.recipient = address)

/-- `getAddressData(address).addressBalance`: `+amount` when the address is
the recipient, else `-amount - (fee || 0)` when it is the sender. -/
def addressBalance (chain : List Block) (address : String) : Rat :=
  (getAddressTransactions chain address).foldl
    (fun balance tx =>
      if tx.recipient = address then balance + tx.amount
      else if tx.sender = address then balance - tx.amount - feeOrZero tx.fee
      else balance) 0

/-- `isValidTransaction(amount, sender, recipient, fee)` from
`blockchain.js`.  `Except.error` models a thrown `Error` (minimum-fee and
insufficient-balance failures throw; the other failures return `false`).
The balance is computed against `chain` — the node's own current chain. -/
def isValidTransaction (ext : JsExt) (chain : List Block) (amount : Rat)
    (sender recipient : String) (fee : Option Rat) : Except String Bool :=
  if amount ≤ 0 then .ok false
  else if sender = recipient then .ok false
  else if sender = "" ∨ recipient = "" then .ok false
  else if ¬ isValidAddress ext sender ∧ sender ≠ "00" ∧ sender ≠ "FAUCET"
          ∧ sender ≠ "ECOSYSTEM" then .ok false
  else if ¬ isValidAddress ext recipient then .ok false
  else if sender = "00" ∨ sender = "FAUCET" ∨ sender = "ECOSYSTEM" then .ok true
  else
    let actualFee := feeOrZero fee
    if actualFee < minTransactionFee then
      .error "Minimum transaction fee"
    else
      -- the source re-tests `sender !== '00' && ...` here; at this point
      -- it is always true, so the balance check runs unconditionally
      let totalAmount := amount + actualFee
      if addressBalance chain sender < totalAmount then
        .error "Insufficient balance"
      else .ok true

/-- `hashBlock(previousBlockHash, currentBlockData, nonce)`:
`sha256(previousBlockHash + nonce.toString() + JSON.stringify(currentBlockData))`
where `currentBlockData = {transactions, index}`. -/
def hashBlock (ext : JsExt) (previousBlockHash : String) (transactions : List Tx)
    (index : Int) (nonce : Nat) : String :=
  ext.sha256hex (previousBlockHash ++ toString nonce
    ++ ext.stringifyBlockData transactions index)

/-- `isValidGenesisBlock(block)` (current version): nonce 100, sentinel
hashes, no transactions, index 1 or 0.  The `block &&` guard and the
`Array.isArray` test hold by typing in this embedding. -/
def isValidGenesisBlock (b : Block) : Bool :=
  b.nonce = 100 ∧ b.previousBlockHash = "0" ∧ b.hash = "0"
    ∧ b.transactions = [] ∧ (b.index = 1 ∨ b.index = 0)

/-- `isValidBlockStructure(block)` checks only JavaScript runtime types
(`typeof`/`Array.isArray`); in this typed embedding every `Block` value
satisfies them. -/
def isValidBlockStructure (_ : Block) : Bool := true

/-- `currentBlock.difficulty || this.difficulty`: an absent or zero
difficulty falls back to the node's difficulty. -/
def diffOr (d : Option Nat) (fallback : Nat) : Nat :=
  match d with
  | none => fallback
  | some 0 => fallback
  | some k => k

/-- A string of `d` zero characters, `'0'.repeat(difficulty)`. -/
def zeroes (d : Nat) : String := String.mk (List.replicate d '0')

/-- The loop body of `validateBlockTransactions`: walk the block's
transactions keeping the set of seen ids and the accumulated fees;
a duplicate id or an invalid transaction yields `false`; a throw from
`isValidTransaction` propagates. -/
def validateTxList (ext : JsExt) (localChain : List Block) :
    List Tx → List String → Rat → Except String (Bool × Rat)
  | [], _, total => .ok (true, total)
  | tx :: rest, seen, total =>
    if tx.transactionId ∈ seen then .ok (false, total)
    else
      match isValidTransaction ext localChain tx.amount tx.sender tx.recipient tx.fee with
      | .error e => .error e
      | .ok false => .ok (false, total)
      | .ok true =>
        validateTxList ext localChain rest (tx.transactionId :: seen)
          (total + feeOrZero tx.fee)

/-- `validateBlockTransactions(block)` from `blockchain.js`: no duplicate
ids inside the block, every transaction passes `isValidTransaction`
(balances against the node's own chain `localChain`), and a present
`totalFees` header must equal the recomputed sum. -/
def validateBlockTransactions (ext : JsExt) (localChain : List Block)
    (block : Block) : Except String Bool :=
  match validateTxList ext localChain block.transactions [] 0 with
  | .error e => .error e
  | .ok (false, _) => .ok false
  | .ok (true, total) =>
    match block.totalFees with
    | some tf => .ok (tf = total)
    | none => .ok true

/-- The `for` loop of `chainIsValid`, walking consecutive block pairs:
structure, hash link, recomputed hash, proof-of-work at the block's
declared (or fallback) difficulty, and per-block transaction validation.
`localChain`/`fallbackDiff` are the node's own chain and difficulty. -/
def validateChainFrom (ext : JsExt) (localChain : List Block) (fallbackDiff : Nat) :
    Block → List Block → Except String Bool
  | _, [] => .ok true
  | prevBlock, currentBlock :: rest =>
    if ¬ isValidBlockStructure currentBlock then .ok false
    else if currentBlock.previousBlockHash ≠ prevBlock.hash then .ok false
    else
      let blockHash := hashBlock ext prevBlock.hash currentBlock.transactions
        currentBlock.index currentBlock.nonce
      if blockHash ≠ currentBlock.hash then .ok false
      else
        let difficulty := diffOr currentBlock.difficulty fallbackDiff
        if blockHash.take difficulty ≠ zeroes difficulty then .ok false
        else
          match validateBlockTransactions ext localChain currentBlock with
          | .error e => .error e
          | .ok false => .ok false
          | .ok true => validateChainFrom ext localChain fallbackDiff currentBlock rest

/-- `chainIsValid(blockchain)` from `blockchain.js`.  An empty candidate
fails the genesis test (`isValidGenesisBlock(undefined)` is falsy).  The
`Except.error` case models the exception that `isValidTransaction` can
throw through `validateBlockTransactions` — the source does not catch it. -/
def chainIsValid (ext : JsExt) (st : BCState) (blockchain : List Block) :
    Except String Bool :=
  match blockchain with
  | [] => .ok false
  | genesisBlock :: rest =>
    if ¬ isValidGenesisBlock genesisBlock then .ok false
    else validateChainFrom ext st.chain st.difficulty genesisBlock rest

/-! ## The durable store (`saveToDatabase`) -/

/-- Observable status of the LevelDB handle (`this.db.status`). -/
inductive DbStatus
  | openS
  | closedS
  | otherS
deriving Repr, DecidableEq

/-- A model of the LevelDB handle as `saveToDatabase` observes it:
whether `this.db` is set at all, its status, and whether `open()` and
`put()` would succeed or raise. -/
structure DbSim where
  present : Bool
  status : DbStatus
  openOk : Bool
  writeOk : Bool
deriving Repr, DecidableEq

/-- `await this.db.open()` -/
def dbOpen (db : DbSim) : Except String Unit :=
  if db.openOk then .ok () else .error "open failed"

/-- One of the `await this.db.put(...)` writes (they all share `writeOk`). -/
def dbPut (db : DbSim) : Except String Unit :=
  if db.writeOk then .ok () else .error "write failed"

/-- `saveToDatabase()` from `blockchain.js` (current version).  Every
failure path — store missing or closed, `open()` rejection, `put()`
rejection, anything else — is caught inside the method, which then
returns normally without touching the in-memory state.  The returned
`Except` is the outcome the *caller* observes. -/
def saveToDatabase (st : BCState) (db : DbSim) : Except String Unit × BCState :=
  -- `if (!this.db || this.db.status === 'closed') { ...; return; }`
  if ¬ db.present ∨ db.status = .closedS then (.ok (), st)
  else
    -- `if (this.db.status !== 'open') { try { await this.db.open(); } catch { return; } }`
    match (if db.status ≠ .openS then dbOpen db else .ok ()) with
    | .error _ => (.ok (), st)
    | .ok () =>
      -- inner `try { puts } catch (writeError) { log; }`
      match dbPut db with
      | .error _ => (.ok (), st)
      | .ok () => (.ok (), st)

/-! ## Block creation and mining -/

/-- `createNewBlock(nonce, previousBlockHash, hash)` from `blockchain.js`
(current version): takes a fresh slice of up to `maxTransactionsPerBlock`
pending transactions, sums their fees into `totalFees`, appends the block
and drops the processed transactions from the pool.  `now` stands for
`Date.now()`; the `saveToDatabase` call is replayed on the new state. -/
def createNewBlock (st : BCState) (db : DbSim) (nonce : Nat)
    (previousBlockHash hash : String) (now : Int) : Block × BCState :=
  let processedTransactions := st.pendingTransactions.take maxTransactionsPerBlock
  let totalFees := processedTransactions.foldl (fun total tx => total + feeOrZero tx.fee) 0
  let newBlock : Block :=
    { index := (st.chain.length : Int) + 1
      timestamp := now
      transactions := processedTransactions
      nonce := nonce
      hash := hash
      previousBlockHash := previousBlockHash
      difficulty := some st.difficulty
      totalFees := some totalFees }
  let st' : BCState :=
    { st with
      pendingTransactions := st.pendingTransactions.drop maxTransactionsPerBlock
      chain := st.chain ++ [newBlock] }
  (newBlock, (saveToDatabase st' db).2)

/-- `adjustDifficulty()` from `blockchain.js` (current version): with at
least two blocks, compare the gap between the last two block timestamps
to `targetBlockTime`; a gap under half the target increments the
difficulty, a gap over twice the target decrements it with a floor of 1. -/
def adjustDifficulty (st : BCState) : BCState :=
  if st.chain.length < 2 then st
  else
    match st.chain.getLast?, st.chain.dropLast.getLast? with
    | some lastBlock, some secondLastBlock =>
      let timeDiff := lastBlock.timestamp - secondLastBlock.timestamp
      if timeDiff < targetBlockTime / 2 then
        { st with difficulty := st.difficulty + 1 }
      else if timeDiff > targetBlockTime * 2 then
        { st with difficulty := max 1 (st.difficulty - 1) }
      else st
    | _, _ => st

/-- `autoMine()` from `blockchain.js`.  The unbounded `proofOfWork` search
is represented by its result `nonce`; `blockHash` is recomputed from it
exactly as the source does.  `rewardTxId`/`nowReward` stand for the
`uuidv4()` and `Date.now()` calls that build the reward transaction, and
`nowBlock` for the `Date.now()` inside `createNewBlock`.

Aliasing note, faithful to the source: `currentBlockData.transactions`
is `this.pendingTransactions.slice(0, max)` — a *copy* of the pool
prefix.  The source pushes `rewardTransaction` onto that copy *after*
hashing, but `createNewBlock` then takes its own fresh
`this.pendingTransactions.slice(0, max)`, so the pushed reward
transaction is never read again; the embedding binds it to the unused
`_currentBlockDataWithReward`. -/
def autoMine (ext : JsExt) (st : BCState) (db : DbSim) (nonce : Nat)
    (rewardTxId : String) (nowReward nowBlock : Int) : Option (Block × BCState) :=
  -- `if (this.isMining || this.pendingTransactions.length === 0) return;`
  if st.pendingTransactions = [] then none
  else
    match st.chain.getLast? with
    | none => none
    | some lastBlock =>
      let previousBlockHash := lastBlock.hash
      let currentBlockDataTxs := st.pendingTransactions.take maxTransactionsPerBlock
      let currentBlockDataIndex := lastBlock.index + 1
      let blockHash := hashBlock ext previousBlockHash currentBlockDataTxs
        currentBlockDataIndex nonce
      let rewardTransaction : Tx :=
        { amount := miningReward
          sender := "00"
          recipient := st.minerAddress
          fee := some 0
          transactionId := rewardTxId
          timestamp := nowReward }
      let _currentBlockDataWithReward := currentBlockDataTxs ++ [rewardTransaction]
      let (newBlock, st') := createNewBlock st db nonce previousBlockHash blockHash nowBlock
      some (newBlock, adjustDifficulty st')

/-! ## Transaction creation and mempool admission -/

/-- `createNewTransaction(amount, sender, recipient, fee)` from
`blockchain.js` (current version): validate with the fee as provided
(a falsy fee parses to 0), then apply the minimum fee floor.  `txId` and
`now` stand for the `uuidv4()` and `Date.now()` calls. -/
def createNewTransaction (ext : JsExt) (chain : List Block) (amount : Rat)
    (sender recipient : String) (fee : Option Rat) (txId : String) (now : Int) :
    Except String Tx :=
  let actualFee := feeOrZero fee
  match isValidTransaction ext chain amount sender recipient (some actualFee) with
  | .error e => .error e
  | .ok false => .error "Invalid transaction"
  | .ok true =>
    let finalFee := max actualFee minTransactionFee
    .ok { amount := amount
          sender := sender
          recipient := recipient
          fee := some finalFee
          transactionId := txId
          timestamp := now }

/-- `addTransactionToPendingTransactions(transactionObj)` from
`blockchain.js` (current version): default a falsy (`undefined` or `0`)
fee to `minTransactionFee`, push, save, and return
`getLastBlock().index + 1` (`none` models the crash on an empty chain). -/
def addTransactionToPendingTransactions (st : BCState) (db : DbSim) (tx : Tx) :
    Option (Int × BCState) :=
  let tx' := if tx.fee = none ∨ tx.fee = some 0
             then { tx with fee := some minTransactionFee } else tx
  let st' := { st with pendingTransactions := st.pendingTransactions ++ [tx'] }
  let st'' := (saveToDatabase st' db).2
  match st''.chain.getLast? with
  | none => none
  | some lastBlock => some (lastBlock.index + 1, st'')

/-! ## Inbound single-block append (`POST /receive-new-block`, `index.js`) -/

/-- Response note for an accepted block. -/
def acceptNote : String := "New block received and accepted"

/-- Response note for a rejected block. -/
def rejectNote : String := "New block rejected"

/-- The `/receive-new-block` handler in `index.js`: compare the incoming
block's `previousBlockHash` and `index` against the current tip; on
success push the block and empty the pending pool, otherwise leave the
state untouched.  `none` models the crash on an empty chain. -/
def receiveNewBlock (st : BCState) (newBlock : Block) : Option (String × BCState) :=
  match st.chain.getLast? with
  | none => none
  | some lastBlock =>
    let correctHash := lastBlock.hash = newBlock.previousBlockHash
    let correctIndex := lastBlock.index + 1 = newBlock.index
    if correctHash ∧ correctIndex then
      some (acceptNote,
        { st with chain := st.chain ++ [newBlock], pendingTransactions := [] })
    else
      some (rejectNote, st)

/-! ## Sync manager (`sync-manager.js`) -/

/-- One fetched peer blockchain as `collectPeerBlockchains` packages it
(`difficulty` was defaulted there with `response.difficulty || 1`). -/
structure PeerData where
  source : String
  chain : List Block
  pendingTransactions : List Tx
  difficulty : Nat
deriving Repr, DecidableEq

/-- Result record of `updateBlockchainIfBetter`. -/
structure UpdResult where
  updated : Bool
  reason : Option String
  oldLength : Option Nat
  newLength : Option Nat
  source : Option String
deriving Repr, DecidableEq

/-- The transaction ids already on `chain` (skipping falsy empty ids),
as collected by `mergePendingTransactions`. -/
def confirmedTxIds (chain : List Block) : List String :=
  (((chain.map Block.transactions).flatten).filter
    (fun tx => tx.transactionId ≠ "")).map Tx.transactionId

/-- The accumulating loop of `mergePendingTransactions`: keep the first
occurrence of each id that is non-empty, not confirmed and not yet seen. -/
def mergeLoop (confirmed : List String) :
    List Tx → List String → List Tx → List Tx
  | [], _, acc => acc
  | tx :: rest, seen, acc =>
    if tx.transactionId ≠ "" ∧ tx.transactionId ∉ confirmed
        ∧ tx.transactionId ∉ seen then
      mergeLoop confirmed rest (tx.transactionId :: seen) (acc ++ [tx])
    else mergeLoop confirmed rest seen acc

/-- `mergePendingTransactions(remotePending, localPending)` from
`sync-manager.js`, reading the (already replaced) chain for confirmed ids. -/
def mergePendingTransactions (chain : List Block)
    (remotePending localPending : List Tx) : List Tx :=
  mergeLoop (confirmedTxIds chain) (remotePending ++ localPending) [] []

/-- `updateBlockchainIfBetter(bestChain)` from `sync-manager.js`.
Strictly-longer test, then full `chainIsValid` (whose thrown exceptions
propagate out of the method — the call sits before the `try` block), then
the `try` body: snapshot `backupChain`/`backupPending` (bound but, as in
the source, never used again), install the candidate chain, merge the
mempools against the *new* chain, adopt the peer difficulty when truthy,
and save.  `saveToDatabase` never raises (see `saveToDatabase`), so the
`catch` branch that would return `update_failed` is unreachable and the
body always reports `updated: true`. -/
def updateBlockchainIfBetter (ext : JsExt) (st : BCState) (db : DbSim)
    (bestChain : PeerData) : Except String (UpdResult × BCState) :=
  let localLength := st.chain.length
  let remoteLength := bestChain.chain.length
  if remoteLength ≤ localLength then
    .ok ({ updated := false, reason := some "local_is_current",
           oldLength := none, newLength := none, source := none }, st)
  else
    match chainIsValid ext st bestChain.chain with
    | .error e => .error e
    | .ok false =>
      .ok ({ updated := false, reason := some "invalid_remote_chain",
             oldLength := none, newLength := none, source := none }, st)
    | .ok true =>
      let _backupChain := st.chain
      let _backupPending := st.pendingTransactions
      let newChain := bestChain.chain
      let newPending :=
        mergePendingTransactions newChain bestChain.pendingTransactions
          st.pendingTransactions
      let newDifficulty := if bestChain.difficulty ≠ 0 then bestChain.difficulty
                           else st.difficulty
      let st' : BCState :=
        { chain := newChain
          pendingTransactions := newPending
          difficulty := newDifficulty
          minerAddress := st.minerAddress }
      let st'' := (saveToDatabase st' db).2
      .ok ({ updated := true, reason := none,
             oldLength := some localLength, newLength := some st''.chain.length,
             source := some bestChain.source }, st'')

/-! ## Concrete fixtures used by witnesses and counterexamples

A concrete instantiation of the external-library record, plus small
concrete states.  `extC.sha256hex` is a stand-in digest returning
`"0000"`, which satisfies a difficulty-4 target, so small concrete
chains can pass `chainIsValid`. -/

/-- Concrete external-library instantiation for evaluation. -/
def extC : JsExt :=
  { sha256hex := fun _ => "0000"
    sha256bytes := fun _ => List.replicate 32 0
    stringifyBlockData := fun _ _ => "" }

/-- A well-formed `EKH` address under `extC`: 20 zero payload bytes and
the matching checksum `[0,0,0,0]`. -/
def addrA : String := "EKH" ++ zeroes 48

/-- The genesis block as `createGenesisBlock` builds it (timestamp fixed). -/
def genesisC : Block :=
  { index := 1, timestamp := 0, transactions := [], nonce := 100,
    hash := "0", previousBlockHash := "0", difficulty := some 4,
    totalFees := none }

/-- A freshly initialized node state: genesis only, empty pool. -/
def stC : BCState :=
  { chain := [genesisC], pendingTransactions := [], difficulty := 4,
    minerAddress := "MINER" }

/-- A database handle on which every operation succeeds. -/
def dbOk : DbSim :=
  { present := true, status := .openS, openOk := true, writeOk := true }

/-- A database handle whose writes fail: persistence is unavailable. -/
def dbFail : DbSim :=
  { present := true, status := .openS, openOk := true, writeOk := false }

/-- A valid successor of `genesisC` under `extC`: its stored hash equals
the recomputed `hashBlock` value `"0000"`, which meets difficulty 4. -/
def b2C : Block :=
  { index := 2, timestamp := 5000, transactions := [], nonce := 0,
    hash := "0000", previousBlockHash := "0", difficulty := some 4,
    totalFees := some 0 }

/-- The peer payload carrying the valid two-block chain. -/
def bestC : PeerData :=
  { source := "http://peer", chain := [genesisC, b2C],
    pendingTransactions := [], difficulty := 4 }

/-- The node state after adopting `bestC` from `stC`. -/
def stAdopted : BCState :=
  { chain := [genesisC, b2C], pendingTransactions := [], difficulty := 4,
    minerAddress := "MINER" }

/-- A faucet transaction (100 EKH to `addrA`, fee 0). -/
def faucetTxC : Tx :=
  { amount := 100, sender := "FAUCET", recipient := addrA, fee := some 0,
    transactionId := "ftx1", timestamp := 10 }

/-- Node state holding exactly the faucet transaction in its mempool. -/
def stF : BCState :=
  { chain := [genesisC], pendingTransactions := [faucetTxC], difficulty := 4,
    minerAddress := "MINER" }

/-- Boolean projection: did a sync-manager result report `updated: true`?
(A propagated exception reports nothing, hence `false`.) -/
def updResultUpdated : Except String (UpdResult × BCState) → Bool
  | .ok (r, _) => r.updated
  | .error _ => false

/-- The result record `updateBlockchainIfBetter` returns when it adopts
`bestC` over `stC`. -/
def updOkResult : UpdResult :=
  { updated := true, reason := none, oldLength := some 1, newLength := some 2,
    source := some "http://peer" }

/-- The result record of a `local_is_current` refusal. -/
def updCurrentResult : UpdResult :=
  { updated := false, reason := some "local_is_current", oldLength := none,
    newLength := none, source := none }

/-- A block that links correctly to `genesisC` (previous hash `"0"`,
index 2) but whose stored hash neither matches the recomputed
`hashBlock` value under `extC` nor satisfies the difficulty-4 target. -/
def badBlockC : Block :=
  { index := 2, timestamp := 1, transactions := [], nonce := 0,
    hash := "deadbeef", previousBlockHash := "0", difficulty := some 4,
    totalFees := none }

/-- A pending transaction that will be included in `blockP1`. -/
def tP1 : Tx :=
  { amount := 1, sender := "A1", recipient := "B1", fee := some 1,
    transactionId := "p1", timestamp := 0 }

/-- A pending transaction that is *not* included in `blockP1`. -/
def tP2 : Tx :=
  { amount := 2, sender := "A2", recipient := "B2", fee := some 1,
    transactionId := "p2", timestamp := 0 }

/-- Node state whose mempool holds `tP1` and `tP2`. -/
def stM : BCState :=
  { chain := [genesisC], pendingTransactions := [tP1, tP2], difficulty := 4,
    minerAddress := "MINER" }

/-- A correctly linked successor block containing exactly `tP1`. -/
def blockP1 : Block :=
  { index := 2, timestamp := 1, transactions := [tP1], nonce := 0,
    hash := "h2", previousBlockHash := "0", difficulty := some 4,
    totalFees := some 1 }

/-- A transaction whose id already sits in `stDup`'s mempool. -/
def dupTx : Tx :=
  { amount := 1, sender := "S1", recipient := "R1", fee := some 1,
    transactionId := "dup", timestamp := 0 }

/-- Node state whose mempool already contains `dupTx`. -/
def stDup : BCState :=
  { chain := [genesisC], pendingTransactions := [dupTx], difficulty := 4,
    minerAddress := "MINER" }

/-- A transaction submitted without a fee field. -/
def txNoFee : Tx :=
  { amount := 5, sender := "X1", recipient := "Y1", fee := none,
    transactionId := "nf1", timestamp := 1 }

/-- The transaction `createNewTransaction extC [] 10 "FAUCET" addrA none`
returns: the provided (missing) fee is floored to `minTransactionFee`. -/
def txW : Tx :=
  { amount := 10, sender := "FAUCET", recipient := addrA,
    fee := some minTransactionFee, transactionId := "t1", timestamp := 0 }

/-- `stM` after `/receive-new-block` accepts `blockP1`: block appended,
mempool cleared. -/
def stMAfter : BCState :=
  { chain := [genesisC, blockP1], pendingTransactions := [], difficulty := 4,
    minerAddress := "MINER" }

/-- `stC` after admitting `txNoFee`: the stored copy carries the minimum fee. -/
def stW' : BCState :=
  { chain := [genesisC],
    pendingTransactions := [{ txNoFee with fee := some minTransactionFee }],
    difficulty := 4, minerAddress := "MINER" }

/-! ## Shared lemmas -/

/-- `saveToDatabase` returns normally and leaves the node state unchanged,
whatever the store handle looks like. -/
theorem saveToDatabase_eq (st : BCState) (db : DbSim) :
    saveToDatabase st db = (.ok (), st) := by
  rcases db with ⟨p, s, o, w⟩
  cases p <;> cases s <;> cases o <;> cases w <;> rfl

/-- State projection of `saveToDatabase_eq`. -/
theorem saveToDatabase_snd (st : BCState) (db : DbSim) :
    (saveToDatabase st db).2 = st := by
  rw [saveToDatabase_eq]

/-! ## Claim C9 -/

/-- C9: `saveToDatabase` never propagates an error to its caller — for
every store condition (absent handle, closed, failing `open()`, failing
`put()`, or all good) it returns normally — and it never modifies the
in-memory chain, pending transactions, or any other node state. -/
theorem saveToDatabase_never_fails (st : BCState) (db : DbSim) :
    (saveToDatabase st db).1 = .ok () ∧ (saveToDatabase st db).2 = st := by
  rw [saveToDatabase_eq]
  exact ⟨rfl, rfl⟩

/-! ## Claim C1 -/

/-- C1 (code bug evidence): auto-mining the mempool that holds exactly one
faucet transaction yields a block whose transaction list is `[faucet]`
only — the coinbase reward transaction is pushed onto a discarded copy of
the mempool slice and never reaches the block — and afterwards the miner
address's balance is 0, not 12.5, while the faucet recipient holds 100. -/
theorem autoMine_drops_coinbase :
    ((autoMine extC stF dbOk 7 "rwd1" 20 30).map (fun p => p.1.transactions))
        = some [faucetTxC]
    ∧ ((autoMine extC stF dbOk 7 "rwd1" 20 30).map
        (fun p => (p.1.transactions.map Tx.sender).count "00")) = some 0
    ∧ ((autoMine extC stF dbOk 7 "rwd1" 20 30).map
        (fun p => addressBalance p.2.chain "MINER")) = some 0
    ∧ ((autoMine extC stF dbOk 7 "rwd1" 20 30).map
        (fun p => addressBalance p.2.chain addrA)) = some 100 := by
  with_unfolding_all decide

/-! ## Claim C3 -/

/-- C3 (code bug evidence): when persisting the adopted chain fails
(`dbFail` rejects every write), `updateBlockchainIfBetter` still returns
`updated := true` — not `updated := false` with reason `"update_failed"` —
and the candidate chain stays installed in memory: the
`backupChain`/`backupPending` snapshot is never restored. -/
theorem updateBlockchain_keeps_candidate_on_persist_failure :
    dbFail.writeOk = false
    ∧ updateBlockchainIfBetter extC stC dbFail bestC
        = .ok ({ updated := true, reason := none, oldLength := some 1,
                 newLength := some 2, source := some "http://peer" }, stAdopted)
    ∧ stAdopted.chain ≠ stC.chain := by
  refine ⟨rfl, ?_, by decide⟩
  with_unfolding_all rfl

/-! ## Claim C2 -/

/-- C2 (counterexample): `badBlockC` links correctly to the tip of `stC`
but its stored hash does not match the recomputed `hashBlock` value and
fails the proof-of-work target — yet `/receive-new-block` appends it.
This refutes the claim that a block is appended only if hash
recomputation and proof-of-work pass. -/
theorem receiveNewBlock_skips_validation :
    receiveNewBlock stC badBlockC
      = some (acceptNote,
          { stC with chain := stC.chain ++ [badBlockC], pendingTransactions := [] })
    ∧ hashBlock extC genesisC.hash badBlockC.transactions badBlockC.index
        badBlockC.nonce ≠ badBlockC.hash
    ∧ badBlockC.hash.take (diffOr badBlockC.difficulty stC.difficulty)
        ≠ zeroes (diffOr badBlockC.difficulty stC.difficulty) := by
  with_unfolding_all decide

/-- C2 (amended): the inbound single-block append accepts a block *iff*
its `previousBlockHash` equals the tip's hash and its `index` equals the
tip's index plus one; no hash recomputation, proof-of-work, or
transaction validation is performed.  On rejection the state is
unchanged. -/
theorem receiveNewBlock_linkage_only (st : BCState) (b lastB : Block)
    (h : st.chain.getLast? = some lastB) :
    (receiveNewBlock st b
        = some (acceptNote,
            { st with chain := st.chain ++ [b], pendingTransactions := [] })
      ↔ lastB.hash = b.previousBlockHash ∧ lastB.index + 1 = b.index)
    ∧ (¬ (lastB.hash = b.previousBlockHash ∧ lastB.index + 1 = b.index) →
        receiveNewBlock st b = some (rejectNote, st)) := by
  unfold receiveNewBlock
  rw [h]
  dsimp only
  split_ifs with hc
  · exact ⟨⟨fun _ => hc, fun _ => rfl⟩, fun hn => absurd hc hn⟩
  · refine ⟨⟨fun heq => ?_, fun hcc => absurd hcc hc⟩, fun _ => rfl⟩
    simp only [Option.some.injEq, Prod.mk.injEq] at heq
    exact absurd heq.1 (by decide)

/-- C2 (witness): a correctly linked block is accepted and appended. -/
theorem receiveNewBlock_linkage_only_witness :
    receiveNewBlock stC blockP1
      = some (acceptNote,
          { stC with chain := stC.chain ++ [blockP1], pendingTransactions := [] }) :=
  (receiveNewBlock_linkage_only stC blockP1 genesisC
    (by with_unfolding_all decide)).1.mpr (by decide)

/-! ## Claim C4 -/

/-- C4 (counterexample): `tP2` is pending, its id does not appear in the
accepted block `blockP1`, yet after acceptance the mempool is empty —
refuting the claim that unrelated pending transactions remain. -/
theorem receiveNewBlock_evicts_unrelated :
    tP2 ∈ stM.pendingTransactions
    ∧ tP2.transactionId ∉ blockP1.transactions.map Tx.transactionId
    ∧ (receiveNewBlock stM blockP1).map (fun p => p.2.pendingTransactions)
        = some [] := by
  with_unfolding_all decide

/-- C4 (amended): when the inbound single-block append accepts a block,
it clears the *entire* mempool (`pendingTransactions = []`), regardless
of which transaction ids appear in the block, and appends the block. -/
theorem receiveNewBlock_clears_pool (st : BCState) (b : Block) (st' : BCState)
    (h : receiveNewBlock st b = some (acceptNote, st')) :
    st'.pendingTransactions = [] ∧ st'.chain = st.chain ++ [b] := by
  unfold receiveNewBlock at h
  cases hl : st.chain.getLast? with
  | none => rw [hl] at h; cases h
  | some lastB =>
    rw [hl] at h
    dsimp only at h
    split_ifs at h with hc
    · simp only [Option.some.injEq, Prod.mk.injEq] at h
      rw [← h.2]
      exact ⟨rfl, rfl⟩
    · simp only [Option.some.injEq, Prod.mk.injEq] at h
      exact absurd h.1 (by decide)

/-- C4 (witness): accepting `blockP1` over `stM` empties the mempool and
appends the block. -/
theorem receiveNewBlock_clears_pool_witness :
    stMAfter.pendingTransactions = [] ∧ stMAfter.chain = stM.chain ++ [blockP1] :=
  receiveNewBlock_clears_pool stM blockP1 stMAfter (by with_unfolding_all decide)

/-! ## Claim C5 -/

/-- C5: a candidate chain is adopted by `updateBlockchainIfBetter` iff it
is strictly longer than the local chain and passes full `chainIsValid`
validation; and after an adoption, re-running the replacement with the
same candidate returns `updated: false` (`local_is_current`) and leaves
the state unchanged. -/
theorem updateBlockchainIfBetter_adopt_iff (ext : JsExt) (st : BCState)
    (db : DbSim) (best : PeerData) :
    (updResultUpdated (updateBlockchainIfBetter ext st db best) = true
      ↔ st.chain.length < best.chain.length
        ∧ chainIsValid ext st best.chain = .ok true)
    ∧ (∀ r st', updateBlockchainIfBetter ext st db best = .ok (r, st') →
        r.updated = true →
        updateBlockchainIfBetter ext st' db best = .ok (updCurrentResult, st')) := by
  by_cases hlen : best.chain.length ≤ st.chain.length
  · unfold updateBlockchainIfBetter
    rw [if_pos hlen]
    constructor
    · simp only [updResultUpdated]
      constructor
      · intro hfalse; cases hfalse
      · intro ⟨hlt, _⟩; omega
    · intro r st' heq hupd
      simp only [Except.ok.injEq, Prod.mk.injEq] at heq
      rw [← heq.1] at hupd
      cases hupd
  · unfold updateBlockchainIfBetter
    rw [if_neg hlen]
    rcases hcv : chainIsValid ext st best.chain with e | b
    · dsimp only
      constructor
      · simp only [updResultUpdated]
        constructor
        · intro hfalse; cases hfalse
        · intro ⟨_, hok⟩; cases hok
      · intro r st' heq; cases heq
    · cases b
      · dsimp only
        constructor
        · simp only [updResultUpdated]
          constructor
          · intro hfalse; cases hfalse
          · intro ⟨_, hok⟩; cases hok
        · intro r st' heq hupd
          simp only [Except.ok.injEq, Prod.mk.injEq] at heq
          rw [← heq.1] at hupd
          cases hupd
      · dsimp only
        rw [saveToDatabase_snd]
        constructor
        · constructor
          · exact fun _ => ⟨by omega, rfl⟩
          · exact fun _ => rfl
        · intro r st' heq _
          simp only [Except.ok.injEq, Prod.mk.injEq] at heq
          have hchain : st'.chain = best.chain := by rw [← heq.2]
          rw [if_pos (by rw [hchain] : best.chain.length ≤ st'.chain.length)]
          rfl

/-- C5 (witness): adopting the valid two-block candidate `bestC` from the
genesis-only state `stC` and then replaying the same candidate yields
`updated: false` with reason `local_is_current` and an unchanged state. -/
theorem updateBlockchainIfBetter_adopt_iff_witness :
    updateBlockchainIfBetter extC stAdopted dbOk bestC
      = .ok (updCurrentResult, stAdopted) :=
  (updateBlockchainIfBetter_adopt_iff extC stC dbOk bestC).2 updOkResult stAdopted
    (by with_unfolding_all rfl) (by decide)

/-! ## Claim C6 -/

/-- C6 (counterexample): `dupTx`'s id is already in the mempool, yet
mempool admission (`addTransactionToPendingTransactions`) inserts it
again and reports the next block index instead of rejecting with a
duplicate-transaction error. -/
theorem admit_duplicate_accepted :
    dupTx.transactionId ∈ stDup.pendingTransactions.map Tx.transactionId
    ∧ addTransactionToPendingTransactions stDup dbOk dupTx
        = some (2, { stDup with pendingTransactions := [dupTx, dupTx] }) := by
  with_unfolding_all decide

/-- C6 (amended): mempool admission performs no duplicate check (and no
validation at all): for every state and transaction it appends the
transaction — after defaulting a missing or zero fee to
`minTransactionFee` — and returns the tip index plus one, even when the
same `transactionId` already occurs in the mempool or on the chain. -/
theorem addTransaction_always_inserts (st : BCState) (db : DbSim) (tx : Tx)
    (lastB : Block) (h : st.chain.getLast? = some lastB) :
    addTransactionToPendingTransactions st db tx
      = some (lastB.index + 1,
          { st with pendingTransactions := st.pendingTransactions ++
              [if tx.fee = none ∨ tx.fee = some 0
               then { tx with fee := some minTransactionFee } else tx] }) := by
  unfold addTransactionToPendingTransactions
  dsimp only
  rw [saveToDatabase_snd]
  dsimp only
  rw [h]

/-- C6 (witness): admission of `dupTx` into `stDup` (whose mempool already
holds that very id) returns block index 2 and the doubled mempool. -/
theorem addTransaction_always_inserts_witness :
    addTransactionToPendingTransactions stDup dbOk dupTx
      = some (genesisC.index + 1,
          { stDup with pendingTransactions := stDup.pendingTransactions ++
              [if dupTx.fee = none ∨ dupTx.fee = some 0
               then { dupTx with fee := some minTransactionFee } else dupTx] }) :=
  addTransaction_always_inserts stDup dbOk dupTx genesisC (by with_unfolding_all decide)

/-! ## Claim C7 -/

/-- C7: a transaction from a non-reserved sender with fee strictly below
`minTransactionFee` is never accepted by `isValidTransaction` (it either
returns `false` on an earlier check or throws the minimum-fee error),
while a transaction from a reserved sender (`"00"`, `"FAUCET"`,
`"ECOSYSTEM"`) is accepted whatever its fee — including 0 — as soon as
the generic shape checks pass. -/
theorem minFee_reserved_exemption (ext : JsExt) (chain : List Block)
    (amount : Rat) (sender recipient : String) (fee : Option Rat) :
    (sender ≠ "00" → sender ≠ "FAUCET" → sender ≠ "ECOSYSTEM" →
        feeOrZero fee < minTransactionFee →
        isValidTransaction ext chain amount sender recipient fee ≠ .ok true)
    ∧ ((sender = "00" ∨ sender = "FAUCET" ∨ sender = "ECOSYSTEM") →
        0 < amount → sender ≠ recipient → isValidAddress ext recipient = true →
        isValidTransaction ext chain amount sender recipient fee = .ok true) := by
  constructor
  · intro h00 hF hE hfee heq
    unfold isValidTransaction at heq
    dsimp only at heq
    split_ifs at heq <;> simp_all
  · intro hres hamount hsr hrec
    have hsne : sender ≠ "" := by
      rcases hres with h | h | h <;> rw [h] <;> decide
    have hrne : recipient ≠ "" := by
      intro hr
      rw [hr] at hrec
      simp [isValidAddress] at hrec
    unfold isValidTransaction
    dsimp only
    rw [if_neg (not_le.mpr hamount), if_neg hsr,
      if_neg (fun h => h.elim (fun hh => hsne hh) (fun hh => hrne hh)),
      if_neg (fun h => by
        rcases hres with hh | hh | hh
        exacts [h.2.1 hh, h.2.2.1 hh, h.2.2.2 hh]),
      if_neg (not_not_intro hrec), if_pos hres]

/-- C7 (witness): under `extC`, a non-reserved sender with fee 0 is not
accepted, while `"FAUCET"` with fee 0 sending 10 EKH to the well-formed
address `addrA` is accepted. -/
theorem minFee_reserved_exemption_witness :
    isValidTransaction extC [] 10 "X1" addrA (some 0) ≠ .ok true
    ∧ isValidTransaction extC [] 10 "FAUCET" addrA (some 0) = .ok true :=
  ⟨(minFee_reserved_exemption extC [] 10 "X1" addrA (some 0)).1
      (by decide) (by decide) (by decide) (by with_unfolding_all decide),
   (minFee_reserved_exemption extC [] 10 "FAUCET" addrA (some 0)).2
      (Or.inr (Or.inl rfl)) (by with_unfolding_all decide) (by decide)
      (by with_unfolding_all decide)⟩

/-! ## Claim C8 -/

/-- C8: after a non-genesis block is appended (chain length ≥ 2),
`adjustDifficulty` compares the tip-to-predecessor time difference with
the 10-second target: strictly under half the target increments the
difficulty by exactly 1; strictly over twice the target sets it to
`max 1 (difficulty - 1)` (a decrement of exactly 1 with floor 1, and the
result is never below 1); otherwise it is unchanged; and in every case
the difficulty moves by at most 1. -/
theorem adjustDifficulty_step (st : BCState) (lastB secondB : Block)
    (h1 : st.chain.getLast? = some lastB)
    (h2 : st.chain.dropLast.getLast? = some secondB)
    (hlen : 2 ≤ st.chain.length) :
    (lastB.timestamp - secondB.timestamp < 5000 →
        (adjustDifficulty st).difficulty = st.difficulty + 1)
    ∧ (lastB.timestamp - secondB.timestamp > 20000 →
        (adjustDifficulty st).difficulty = max 1 (st.difficulty - 1)
        ∧ 1 ≤ (adjustDifficulty st).difficulty)
    ∧ (¬ lastB.timestamp - secondB.timestamp < 5000 →
        ¬ lastB.timestamp - secondB.timestamp > 20000 →
        (adjustDifficulty st).difficulty = st.difficulty)
    ∧ ((adjustDifficulty st).difficulty : Int) - (st.difficulty : Int) ≤ 1
    ∧ (st.difficulty : Int) - ((adjustDifficulty st).difficulty : Int) ≤ 1 := by
  have hne : ¬ st.chain.length < 2 := by omega
  have hhalf : targetBlockTime / 2 = 5000 := by norm_num [targetBlockTime]
  have htwice : targetBlockTime * 2 = 20000 := by norm_num [targetBlockTime]
  unfold adjustDifficulty
  rw [if_neg hne, h1, h2, hhalf, htwice]
  dsimp only
  split_ifs with hlt hgt
  · refine ⟨fun _ => rfl, fun hgt => by omega, fun h5 _ => absurd hlt h5, ?_, ?_⟩
    · dsimp only; push_cast; omega
    · dsimp only; push_cast; omega
  · refine ⟨fun h5 => absurd h5 hlt, fun _ => ⟨rfl, le_max_left 1 _⟩,
      fun _ hg => absurd hgt hg, ?_, ?_⟩
    · dsimp only; omega
    · dsimp only; omega
  · exact ⟨fun h5 => absurd h5 hlt, fun hg => absurd hg hgt, fun _ _ => rfl,
      by omega, by omega⟩

/-- C8 (witness): on the two-block state `stAdopted` the tip gap is
exactly 5000 ms (half the target), so the difficulty stays unchanged. -/
theorem adjustDifficulty_step_witness :
    (adjustDifficulty stAdopted).difficulty = stAdopted.difficulty :=
  (adjustDifficulty_step stAdopted b2C genesisC rfl rfl
      (by decide)).2.2.1 (by decide) (by decide)

/-! ## Claim C10 -/

/-- C10: `createNewTransaction` always returns a transaction whose fee is
`max (provided fee) minTransactionFee` — including for the fee-exempt
reserved senders — so the created fee is never below the floor; and
`addTransactionToPendingTransactions` stores the transaction with a
missing or zero fee silently replaced by `minTransactionFee`, so no
admitted transaction is ever stored with fee 0 (or no fee at all). -/
theorem fee_floor_enforced (ext : JsExt) (chain : List Block) (amount : Rat)
    (sender recipient : String) (fee : Option Rat) (txId : String) (now : Int)
    (st : BCState) (db : DbSim) (txIn : Tx) :
    (∀ tx, createNewTransaction ext chain amount sender recipient fee txId now
        = .ok tx →
        tx.fee = some (max (feeOrZero fee) minTransactionFee)
        ∧ minTransactionFee ≤ feeOrZero tx.fee)
    ∧ (∀ idx st', addTransactionToPendingTransactions st db txIn = some (idx, st') →
        ∃ txStored,
          st'.pendingTransactions = st.pendingTransactions ++ [txStored]
          ∧ txStored.fee ≠ some 0 ∧ txStored.fee ≠ none
          ∧ ((txIn.fee = none ∨ txIn.fee = some 0) →
              txStored.fee = some minTransactionFee)
          ∧ (¬ (txIn.fee = none ∨ txIn.fee = some 0) → txStored.fee = txIn.fee)) := by
  have hmin0 : (0 : Rat) < minTransactionFee := by norm_num [minTransactionFee]
  constructor
  · intro tx heq
    unfold createNewTransaction at heq
    dsimp only at heq
    rcases hv : isValidTransaction ext chain amount sender recipient
        (some (feeOrZero fee)) with e | b
    · rw [hv] at heq; simp at heq
    · rw [hv] at heq
      cases b
      · simp at heq
      · simp only [Except.ok.injEq] at heq
        rw [← heq]
        refine ⟨rfl, ?_⟩
        simp only [feeOrZero, Option.getD_some]
        exact le_max_right _ _
  · intro idx st' heq
    unfold addTransactionToPendingTransactions at heq
    dsimp only at heq
    rw [saveToDatabase_snd] at heq
    dsimp only at heq
    cases hl : st.chain.getLast? with
    | none => rw [hl] at heq; cases heq
    | some lastB =>
      rw [hl] at heq
      simp only [Option.some.injEq, Prod.mk.injEq] at heq
      refine ⟨if txIn.fee = none ∨ txIn.fee = some 0
              then { txIn with fee := some minTransactionFee } else txIn,
        ?_, ?_, ?_, ?_, ?_⟩
      · rw [← heq.2]
      · by_cases hf : txIn.fee = none ∨ txIn.fee = some 0
        · rw [if_pos hf]
          intro hzero
          simp only [Option.some.injEq] at hzero
          exact absurd hzero.symm (ne_of_lt hmin0)
        · rw [if_neg hf]
          intro hzero
          exact hf (Or.inr hzero)
      · by_cases hf : txIn.fee = none ∨ txIn.fee = some 0
        · rw [if_pos hf]; exact Option.some_ne_none _
        · rw [if_neg hf]
          intro hnone
          exact hf (Or.inl hnone)
      · intro hf; rw [if_pos hf]
      · intro hf; rw [if_neg hf]

/-- C10 (witness): a faucet transaction created with no fee comes back
with fee `minTransactionFee`, and admitting the fee-less `txNoFee` into
`stC` stores it with fee `minTransactionFee`. -/
theorem fee_floor_enforced_witness :
    (txW.fee = some (max (feeOrZero none) minTransactionFee)
      ∧ minTransactionFee ≤ feeOrZero txW.fee)
    ∧ (∃ txStored,
        stW'.pendingTransactions = stC.pendingTransactions ++ [txStored]
        ∧ txStored.fee ≠ some 0 ∧ txStored.fee ≠ none
        ∧ ((txNoFee.fee = none ∨ txNoFee.fee = some 0) →
            txStored.fee = some minTransactionFee)
        ∧ (¬ (txNoFee.fee = none ∨ txNoFee.fee = some 0) →
            txStored.fee = txNoFee.fee)) :=
  ⟨(fee_floor_enforced extC [] 10 "FAUCET" addrA none "t1" 0 stC dbOk txNoFee).1
      txW (by with_unfolding_all rfl),
   (fee_floor_enforced extC [] 10 "FAUCET" addrA none "t1" 0 stC dbOk txNoFee).2
      2 stW' (by with_unfolding_all rfl)⟩

end Ekehi

